import Mathlib

/-!
Verification of the bpass sync engine and of its minimal scp client
(package scpsync), following the Go sources.

Go strings are modelled as lists of characters (`Str`), byte streams and
byte slices as lists of naturals (`Bytes`).  Go functions are translated
into executable Lean definitions; Go runtime panics (out-of-range indexing
and slicing) are made explicit through `Option`-valued accessors or a
dedicated `panic` result constructor.
-/

namespace Bpass

abbrev Str := List Char

abbrev Bytes := List Nat

/-- ASCII case lowering of one character, modelling strings.ToLower
character-wise on ASCII text (the only text the sources compare). -/
def lowerChar (c : Char) : Char :=
  if 65 ≤ c.toNat ∧ c.toNat ≤ 90 then Char.ofNat (c.toNat + 32) else c

/-- ASCII case lowering of a string (strings.ToLower on ASCII text). -/
def lowerStr (s : Str) : Str := s.map lowerChar

/-- strings.Contains: does `s` contain `pat` as a contiguous substring. -/
def containsSub (pat : Str) : Str → Bool
  | [] => decide (pat = [])
  | c :: rest => pat.isPrefixOf (c :: rest) || containsSub pat rest

/-! ## scpsync: Err and IsNotFoundErr (src/scpsync/scpsync.go) -/

/-- scpsync.Err: a response error from the remote scp process. -/
structure ScpErr where
  code : Nat
  msg : Str
  deriving DecidableEq

/-- The needle searched for by scpsync.IsNotFoundErr. -/
def notFoundNeedle : Str := "no such file or directory".toList

/-- scpsync.IsNotFoundErr restricted to an `Err` value (the Go function
first type-asserts the error to `Err` and returns false otherwise; other
error types are handled at the call sites of the embedding). -/
def isNotFoundErr (e : ScpErr) : Bool :=
  e.code == 1 && containsSub notFoundNeedle (lowerStr e.msg)

/-! ## scpsync: number formatting and parsing

The sender formats the mode with fmt's %o verb and the length with %d;
the receiver parses both with strconv.ParseInt (bases 8 and 10, bit size
32).
-/

/-- ASCII digits (codes 48..57) of `n` in the given base, most significant
first; fuel-based so that it is structurally recursive, any fuel ≥ n is
enough. -/
def digitsAux (base : Nat) : Nat → Nat → Bytes
  | 0, _ => []
  | fuel + 1, n =>
    if n = 0 then [] else digitsAux base fuel (n / base) ++ [48 + n % base]

/-- ASCII representation of a natural in the given base, as produced by
fmt's %d (base 10) and %o (base 8) verbs for a non-negative value. -/
def natAscii (base n : Nat) : Bytes :=
  if n = 0 then [48] else digitsAux base n n

/-- fmt's %o verb on a Go int: a minus sign followed by the octal digits of
the absolute value when negative, plain octal digits otherwise. -/
def intOct (m : Int) : Bytes :=
  if m < 0 then 45 :: natAscii 8 m.natAbs else natAscii 8 m.toNat

/-- Numeric value of the ASCII byte `b` as a digit in the given base. -/
def digitVal (base b : Nat) : Option Nat :=
  if 48 ≤ b ∧ b < 48 + base then some (b - 48) else none

/-- Accumulating digit parser: the digits of strconv.ParseInt. -/
def parseDigits (base : Nat) : Nat → Bytes → Option Nat
  | acc, [] => some acc
  | acc, b :: rest =>
    match digitVal base b with
    | none => none
    | some d => parseDigits base (acc * base + d) rest

/-- Unsigned digit run of strconv.ParseInt with a positive sign, checked
against the int32 upper bound 2^31 - 1 (errors collapse to none). -/
def parseMagPos (base : Nat) (s : Bytes) : Option Int :=
  match s with
  | [] => none
  | _ =>
    match parseDigits base 0 s with
    | none => none
    | some v => if v ≤ 2 ^ 31 - 1 then some (v : Int) else none

/-- Unsigned digit run of strconv.ParseInt with a negative sign, checked
against the int32 lower bound -2^31. -/
def parseMagNeg (base : Nat) (s : Bytes) : Option Int :=
  match s with
  | [] => none
  | _ =>
    match parseDigits base 0 s with
    | none => none
    | some v => if v ≤ 2 ^ 31 then some (-(v : Int)) else none

/-- strconv.ParseInt(s, base, 32): optional sign, digit run, int32 range
check.  All error cases are collapsed to none. -/
def parseInt32 (base : Nat) (s : Bytes) : Option Int :=
  match s with
  | [] => none
  | b :: rest =>
    if b = 43 then parseMagPos base rest
    else if b = 45 then parseMagNeg base rest
    else parseMagPos base (b :: rest)

/-! ## scpsync: sendFile and readFile -/

/-- Is this ASCII byte whitespace for strings.Fields (space and the five
ASCII control whitespace characters). -/
def isSpaceByte (b : Nat) : Bool := b == 32 || (9 ≤ b && b ≤ 13)

/-- Accumulating worker for strings.Fields. -/
def fieldsAux : Bytes → Bytes → List Bytes
  | [], acc => if acc = [] then [] else [acc.reverse]
  | b :: rest, acc =>
    if isSpaceByte b then
      if acc = [] then fieldsAux rest [] else acc.reverse :: fieldsAux rest []
    else fieldsAux rest (b :: acc)

/-- strings.Fields on ASCII bytes: the maximal runs of non-whitespace. -/
def goFields (s : Bytes) : List Bytes := fieldsAux s []

/-- bufio ReadString up to a newline: the line including its newline plus
the remaining stream, or none when the stream ends first (the Go caller
turns that read error into a failure). -/
def takeLine : Bytes → Option (Bytes × Bytes)
  | [] => none
  | b :: rest =>
    if b = 10 then some ([10], rest)
    else
      match takeLine rest with
      | none => none
      | some (l, r) => some (b :: l, r)

/-- scpsync.scpFile: the parsed single-file transfer. -/
structure ScpFile where
  filename : Bytes
  length : Int
  mode : Int
  contents : Bytes
  deriving DecidableEq

/-- The distinguishable failure exits of scpsync.readFile. -/
inductive ReadFileErr where
  | headerEOF
  | emptyRequest
  | remote (code : Nat) (msg : Bytes)
  | badInitial (b : Nat)
  | badFieldCount (n : Nat)
  | badMode
  | badLength
  | shortRead
  | badTerminator
  deriving DecidableEq

/-- Result of scpsync.readFile: a Go runtime panic, an error return, or the
parsed file. -/
inductive ReadFileRes where
  | panic
  | fail (e : ReadFileErr)
  | ok (f : ScpFile)
  deriving DecidableEq

/-- Byte stream written by scpsync.sendFile for the given mode, contents
and basename: the header C0(octal mode) (length) (basename) newline, the
contents, and the terminating zero byte.  The length field is
len(contents) as passed down by Send; the basename stands for
filepath.Base(filename). -/
def sendFileBytes (mode : Int) (contents basename : Bytes) : Bytes :=
  67 :: 48 ::
    (intOct mode ++
      32 :: (natAscii 10 contents.length ++ 32 :: (basename ++ 10 :: (contents ++ [0]))))

/-- The body-reading phase of scpsync.readFile after the header has been
parsed: make a buffer of length+1 bytes (a Go panic when that is
negative), fill it from the stream (a short stream is a read error),
demand a trailing zero byte (indexing the empty buffer when length+1 is
zero is a Go panic), and return the contents without it. -/
def readFileBody (length mode : Int) (fname rest : Bytes) : ReadFileRes :=
  if length + 1 < 0 then .panic
  else
    let need := (length + 1).toNat
    if rest.length < need then .fail .shortRead
    else
      let buf := rest.take need
      match buf.getLast? with
      | none => .panic
      | some last =>
        if last = 0 then .ok ⟨fname, length, mode, buf.dropLast⟩
        else .fail .badTerminator

/-- The header phase of scpsync.readFile on one line (with its trailing
newline): dispatch on the first byte; split the remainder into exactly
three fields; parse the mode (base 8) and the length (base 10) with
strconv.ParseInt bit size 32; then read the body. -/
def readFileHeader (line rest : Bytes) : ReadFileRes :=
  match line with
  | [] => .fail .emptyRequest
  | b :: tail =>
    if b = 67 then
      match goFields tail with
      | [f0, f1, f2] =>
        match parseInt32 8 f0 with
        | none => .fail .badMode
        | some mode =>
          match parseInt32 10 f1 with
          | none => .fail .badLength
          | some length => readFileBody length mode f2 rest
      | fs => .fail (.badFieldCount fs.length)
    else if b = 1 ∨ b = 2 then .fail (.remote b tail)
    else .fail (.badInitial b)

/-- scpsync.readFile consuming the given byte stream (the sender's output;
the zero-byte acknowledgements written by the receiver travel in the
other direction and are not part of this stream): read one header line,
then parse it and the body. -/
def readFileBytes (stream : Bytes) : ReadFileRes :=
  match takeLine stream with
  | none => .fail .headerEOF
  | some (line, rest) => readFileHeader line rest

/-! ## sshConfig (src/unnamed/part_000, second revision)

net/url is Go standard library, so the url.Parse result is taken as given:
a `GoURL` carries the component accessors the source reads.  `port` is the
empty string when the sync url carries no port (url.URL.Port), `password`
is the empty string when the userinfo carries none, and `path` is
url.URL.Path, which includes its leading slash whenever it is non-empty.
-/

/-- The parsed sync url, at the level of the net/url accessors used by
sshConfig. -/
structure GoURL where
  hostname : Str
  port : Str
  username : Str
  password : Str
  path : Str
  deriving DecidableEq

/-- net.JoinHostPort: host colon port, bracketing the host when it
contains a colon or a percent sign. -/
def joinHostPort (host port : Str) : Str :=
  if host.contains ':' ∨ host.contains '%' then
    '[' :: host ++ (']' :: ':' :: port)
  else host ++ (':' :: port)

/-- Go string slicing s[i:]: defined when i ≤ len(s), a runtime panic
otherwise. -/
def sliceFrom (s : Str) (i : Nat) : Option Str :=
  if i ≤ s.length then some (s.drop i) else none

/-- Result of sshConfig: a Go runtime panic, an error return, or the dial
address together with the remote path handed to scp. -/
inductive CfgRes where
  | panic
  | fail (msg : Str)
  | ok (address path : Str)
  deriving DecidableEq

/-- sshConfig.  The ssh.ParsePrivateKey call on a non-empty priv key is a
library call whose success is abstracted by `privParses`.  Mirrors the
source order: read the url components, slice uri.Path[1:] (a panic when
the path component is empty), then check user, host and the sliced path
for emptiness, then build the dial address with net.JoinHostPort.  No
default port is applied anywhere in this function. -/
def sshConfig (uri : GoURL) (priv : Str) (privParses : Bool) : CfgRes :=
  let host := uri.hostname
  let port := uri.port
  let user := uri.username
  match sliceFrom uri.path 1 with
  | none => .panic
  | some path =>
    if user = [] then .fail "url missing user".toList
    else if host = [] then .fail "url missing host".toList
    else if path = [] then .fail "url missing file path".toList
    else if priv ≠ [] ∧ privParses = false then .fail "bad private key".toList
    else .ok (joinHostPort host port) path

/-! ## hostAsker.callback (src/unnamed/part_000, second revision) -/

/-- Accumulating worker for strings.Split with a one-character
separator. -/
def splitCharAux (c : Char) : Str → Str → List Str
  | [], acc => [acc.reverse]
  | x :: rest, acc =>
    if x = c then acc.reverse :: splitCharAux c rest []
    else splitCharAux c rest (x :: acc)

/-- strings.Split(s, sep) for a one-character separator; on the empty
string it yields one empty piece, as in Go. -/
def splitChar (c : Char) (s : Str) : List Str := splitCharAux c s []

/-- Lowercase hex digit of a value below 16, as printed by fmt's %x. -/
def hexDigitChar (n : Nat) : Char :=
  if n < 10 then Char.ofNat (48 + n) else Char.ofNat (87 + n)

/-- fmt's %x of a byte array: two lowercase hex digits per byte.  Applied
to the sha256.Sum256 digest of the marshalled public key, which the
callback receives here as `hashBytes` (the hash function itself is Go
standard library). -/
def hexBytes (bs : Bytes) : Str :=
  bs.flatMap (fun b => [hexDigitChar (b / 16), hexDigitChar (b % 16)])

/-- Result of hostAsker.callback: a Go runtime panic, an error return, or
success carrying the newHost line recorded on the asker (none when the
host was already known). -/
inductive CbRes where
  | panic
  | fail (msg : Str)
  | ok (newHost : Option Str)
  deriving DecidableEq

/-- The loop of hostAsker.callback over the stored known-host lines:
split each line on spaces, skip it unless its first field is the
connecting hostname, then compare fields 2 and 3 against the connecting
key type and key hash.  Field accesses are unguarded in the source, so a
missing index is a panic.  Returns none when the loop falls through with
no matching line. -/
def scanKnown (hostname keyType keyHash : Str) : List Str → Option CbRes
  | [] => none
  | line :: rest =>
    let vals := splitChar ' ' line
    match vals.get? 0 with
    | none => some .panic
    | some v0 =>
      if v0 = hostname then
        match vals.get? 2 with
        | none => some .panic
        | some v2 =>
          if v2 = keyType then
            match vals.get? 3 with
            | none => some .panic
            | some v3 =>
              if v3 = keyHash then some (.ok none)
              else some (.fail "known host key changed".toList)
          else some (.fail "known host key type changed".toList)
      else scanKnown hostname keyType keyHash rest

/-- The possible prompt turnouts the UI delivers: an entered line, or the
end-of-input and interrupt conditions. -/
inductive PErr where
  | eof
  | interrupt
  deriving DecidableEq

/-- One prompt answer: a line, or a prompt error (ErrEnd, ErrInterrupt). -/
inductive PromptR where
  | line (s : Str)
  | fail (e : PErr)
  deriving DecidableEq

/-- hostAsker.callback.  The connecting key is represented by its type
string and the sha256 digest bytes of its marshalled form; the known
string is the entry's known_hosts value, split on newlines by the
source.  On a first-seen host the user is prompted once; y or Y records
the four-field host line on the asker, anything else rejects the host. -/
def hostCallback (hostname addr keyType : Str) (hashBytes : Bytes)
    (known : Str) (prompt : PromptR) : CbRes :=
  let keyHash := hexBytes hashBytes
  let hostLine := hostname ++ ' ' :: addr ++ ' ' :: keyType ++ ' ' :: keyHash
  match scanKnown hostname keyType keyHash (splitChar '\n' known) with
  | some r => r
  | none =>
    match prompt with
    | .fail _ => .fail "failed to get user confirmation on host".toList
    | .line s =>
      if s = ['y'] ∨ s = ['Y'] then .ok (some hostLine)
      else .fail "user rejected host".toList

/-! ## The sync engine (src/unnamed/part_000, second revision)

txformat and crypt are bpass packages that are not under src/: the
transaction and conflict records are modelled from the spec, and the
results of calls into those packages (UpdateSnapshot, NewLog, Merge,
Decrypt, Save, Encrypt) and of the network transfers are supplied by an
environment, so that the control flow of sync itself is the translated
code.
-/

/-- Modelled from the spec: a txformat transaction (section 3 of the
spec lists exactly these fields).  Only its identity matters to the sync
engine control flow verified here. -/
structure Tx where
  time : Int
  kind : Nat
  uuid : Str
  key : Str
  value : Str
  index : Str
  deriving DecidableEq

/-- Modelled from the spec: a merge conflict, the pair of a delete
transaction and a mutation transaction. -/
structure Conflict where
  deleteTx : Tx
  setTx : Tx
  deriving DecidableEq

/-- The inner conflict-resolution loop of mergeLogs (the for-loop around
the r/R/d/D prompt).  In the source its only exit is a prompt error:
entering r/R/d/D calls Restore or Delete on the conflict and then, with no
break statement, the loop prompts again; any other input hits the
redundant continue.  A finite prompt script therefore always ends in the
end-of-input error once exhausted.  Returns the prompt error, the number
of Restore and of Delete calls made, and the unconsumed script. -/
def resolveLoop : List PromptR → PErr × Nat × Nat × List PromptR
  | [] => (.eof, 0, 0, [])
  | .fail e :: rest => (e, 0, 0, rest)
  | .line s :: rest =>
    let r := resolveLoop rest
    if s = ['R'] ∨ s = ['r'] then (r.1, r.2.1 + 1, r.2.2.1, r.2.2.2)
    else if s = ['D'] ∨ s = ['d'] then (r.1, r.2.1, r.2.2.1 + 1, r.2.2.2)
    else r

/-- The for-range of mergeLogs over the conflicts slice: each conflict
prints its description and runs the resolution loop, which always ends in
a prompt error, making mergeLogs return; so the first conflict decides
the outcome.  Returns none with the untouched script when the slice is
empty. -/
def conflictLoop : List Conflict → List PromptR → Option PErr × List PromptR
  | [], prompts => (none, prompts)
  | _ :: _, prompts =>
    let r := resolveLoop prompts
    (some r.1, r.2.2.2)

/-- The for-range of mergeLogs over the logs to merge, carrying the
accumulated merged log and conflicts exactly as the source's variables c
and conflicts do.  txformat.Merge is abstracted as `merge`. -/
def mergeLogsLoop (merge : List Tx → List Tx → List Conflict → List Tx × List Conflict)
    (inL : List Tx) :
    List (List Tx) → List Conflict → List Tx → List PromptR → Except PErr (List Tx)
  | [], _, c, _ => .ok c
  | log :: rest, conflicts, _, prompts =>
    let m := merge inL log conflicts
    if m.2 = [] then .ok m.1
    else
      match conflictLoop m.2 prompts with
      | (some e, _) => .error e
      | (none, rem) => mergeLogsLoop merge inL rest m.2 m.1 rem

/-- mergeLogs: an empty toMerge returns the input log unchanged; otherwise
run the merge loop with empty initial conflict set and nil accumulator. -/
def mergeLogs (merge : List Tx → List Tx → List Conflict → List Tx × List Conflict)
    (inL : List Tx) (toMerge : List (List Tx)) (prompts : List PromptR) :
    Except PErr (List Tx) :=
  match toMerge with
  | [] => .ok inL
  | _ :: _ => mergeLogsLoop merge inL toMerge [] [] prompts

abbrev EMsg := Str

/-- Outcome of one crypt.Decrypt call as seen by decryptBlob. -/
inductive DecRes where
  | ok (pt : Bytes)
  | wrongPass
  | other (m : EMsg)
  deriving DecidableEq

/-- Modelled from the spec: crypt.Decrypt (crypt is not under src/)
succeeds exactly on the correct passphrase and fails with
ErrWrongPassphrase on any other (spec sections 4.1 and 8, item 6). -/
def specDecrypt (correct : Str) (pt : Bytes) (pass : Str) : DecRes :=
  if pass = correct then .ok pt else .wrongPass

/-- Result of decryptBlob: the plaintext, an error return, or the
(nil, nil) return taken on a prompt error or an empty entered
passphrase. -/
inductive DBOut where
  | ok (pt : Bytes)
  | fail (m : EMsg)
  | skip
  deriving DecidableEq

/-- decryptBlob: decrypt with the in-memory passphrase, and while
decryption fails with ErrWrongPassphrase keep prompting for a new one; a
prompt error or an empty entered passphrase returns (nil, nil).  A second
component counts the prompts issued (instrumentation; the Go function
does not return it).  An exhausted script stands for the terminal
reporting end-of-input on the next prompt. -/
def decryptBlob (dec : Str → DecRes) : Str → List PromptR → DBOut × Nat
  | pass, prompts =>
    match dec pass with
    | .ok pt => (.ok pt, 0)
    | .other m => (.fail m, 0)
    | .wrongPass =>
      match prompts with
      | [] => (.skip, 1)
      | .fail _ :: _ => (.skip, 1)
      | .line p :: rest =>
        if p = [] then (.skip, 1)
        else
          let r := decryptBlob dec p rest
          (r.1, r.2 + 1)

abbrev Uuid := Str

/-- Outcome of sshPull (an ssh library call plus network transfer, not
embeddable): the payload, an scp protocol error, or another error. -/
inductive SshRes where
  | ok (ct : Bytes)
  | scp (e : ScpErr)
  | other (m : EMsg)
  deriving DecidableEq

/-- pullBlob's view of the sshPull outcome. -/
inductive PullRes where
  | ok (ct : Bytes)
  | notFound
  | scpErr (e : ScpErr)
  | otherErr (m : EMsg)
  deriving DecidableEq

/-- pullBlob's error classification: an scp error matching IsNotFoundErr
becomes the errNotFound sentinel; the host entry accompanies the result
unchanged at the call site. -/
def pullBlobClassify : SshRes → PullRes
  | .ok ct => .ok ct
  | .scp e => if isNotFoundErr e then .notFound else .scpErr e
  | .other m => .otherErr m

/-- Observable events of a sync run: messages printed per peer and the
writes performed on the local store. -/
inductive Ev where
  | pulled (u : Uuid)
  | pullErrorReported (u : Uuid)
  | decryptFailReported (u : Uuid)
  | parseFailReported (u : Uuid)
  | logCollected (u : Uuid)
  | mergeAbortReported
  | snapshotReset
  | logReplaced
  | rebuildFailReported
  | hostsSaved (hs : List (Uuid × Str))
  | pushed (u : Uuid)
  | pushErrorReported (u : Uuid)
  deriving DecidableEq

/-- How the sync function ends: a process exit with the given code, an
error return, or a normal nil return. -/
inductive SyncRes where
  | exited (code : Nat)
  | failed (e : EMsg)
  | done
  deriving DecidableEq

/-- Environment of one sync run: the store state sync reads and the
results of every call into packages outside src/ (txformat, crypt) and of
every network transfer. -/
structure SyncEnv where
  us1 : Option EMsg
  syncs : List Uuid
  sshPull : Uuid → Str × SshRes
  localPass : Str
  peerPass : Uuid → Str
  peerPT : Uuid → Bytes
  decPrompts : Uuid → List PromptR
  parse : Bytes → Except EMsg (List Tx)
  merge : List Tx → List Tx → List Conflict → List Tx × List Conflict
  mergePrompts : List PromptR
  localLog : List Tx
  us2 : Option EMsg
  saveHosts1 : Option EMsg
  saveRes : Except EMsg Bytes
  encRes : Except EMsg Bytes
  sshPush : Uuid → Str × Option EMsg
  saveHosts2 : Option EMsg

/-- One iteration of the pull loop of sync for peer `u`: the events it
prints and the log it contributes, if any.  On errNotFound the peer is
skipped silently; any other pull error is reported and skips; a
decryptBlob error is reported and skips; the (nil, nil) decryptBlob
return flows on into txformat.NewLog with a nil plaintext; a parse error
is reported and skips; otherwise the parsed log is collected. -/
def pullStep (env : SyncEnv) (u : Uuid) : List Ev × Option (List Tx) :=
  match pullBlobClassify (env.sshPull u).2 with
  | .notFound => ([.pulled u], none)
  | .scpErr _ => ([.pulled u, .pullErrorReported u], none)
  | .otherErr _ => ([.pulled u, .pullErrorReported u], none)
  | .ok _ =>
    match (decryptBlob (specDecrypt (env.peerPass u) (env.peerPT u))
        env.localPass (env.decPrompts u)).1 with
    | .fail _ => ([.pulled u, .decryptFailReported u], none)
    | .ok pt =>
      match env.parse pt with
      | .error _ => ([.pulled u, .parseFailReported u], none)
      | .ok lg => ([.pulled u, .logCollected u], some lg)
    | .skip =>
      match env.parse [] with
      | .error _ => ([.pulled u, .parseFailReported u], none)
      | .ok lg => ([.pulled u, .logCollected u], some lg)

/-- The per-peer pull loop of sync: every peer is processed in turn (no
error aborts the loop); a pulled non-empty host entry is recorded even
when the pull failed.  Produces the event trace, the recorded host
entries and the collected logs. -/
def syncPullLoop (env : SyncEnv) : List Uuid → List Ev × List (Uuid × Str) × List (List Tx)
  | [] => ([], [], [])
  | u :: rest =>
    let hosts0 : List (Uuid × Str) :=
      if (env.sshPull u).1 = [] then [] else [(u, (env.sshPull u).1)]
    let tail := syncPullLoop env rest
    ((pullStep env u).1 ++ tail.1, hosts0 ++ tail.2.1,
      match (pullStep env u).2 with
      | some lg => lg :: tail.2.2
      | none => tail.2.2)

/-- The push loop of sync: push to every peer, reporting per-peer errors
and recording non-empty host entries either way. -/
def syncPushLoop (env : SyncEnv) : List Uuid → List Ev × List (Uuid × Str)
  | [] => ([], [])
  | u :: rest =>
    let pr := env.sshPush u
    let evs0 : List Ev :=
      match pr.2 with
      | some _ => [.pushed u, .pushErrorReported u]
      | none => [.pushed u]
    let hs0 : List (Uuid × Str) := if pr.1 = [] then [] else [(u, pr.1)]
    let tail := syncPushLoop env rest
    (evs0 ++ tail.1, hs0 ++ tail.2)

/-- The mergeLogs call made by sync, on the local log and the logs the
pull loop collected. -/
def syncMergeResult (env : SyncEnv) : Except PErr (List Tx) :=
  mergeLogs env.merge env.localLog (syncPullLoop env env.syncs).2.2 env.mergePrompts

/-- The part of uiContext.sync after the pull loop, as the events it adds
after the pull-loop trace together with how the run ends: a mergeLogs
error prints and returns nil with no local state change; otherwise the
snapshot is reset, the log replaced, and a failing rebuild prints and
exits the process with code 1 before any host-key persistence or push; a
successful rebuild saves the pulled host entries and, when push is set,
saves, encrypts and pushes to every peer, saving hosts once more. -/
def syncTail (env : SyncEnv) (push : Bool) : List Ev × SyncRes :=
  match syncMergeResult env with
  | .error _ => ([.mergeAbortReported], .done)
  | .ok _ =>
    match env.us2 with
    | some _ => ([.snapshotReset, .logReplaced, .rebuildFailReported], .exited 1)
    | none =>
      let evs := [Ev.snapshotReset, Ev.logReplaced,
        Ev.hostsSaved (syncPullLoop env env.syncs).2.1]
      match env.saveHosts1 with
      | some e => (evs, .failed e)
      | none =>
        if push = false then (evs, .done)
        else
          match env.saveRes with
          | .error e => (evs, .failed e)
          | .ok _ =>
            match env.encRes with
            | .error e => (evs, .failed e)
            | .ok _ =>
              let evs2 := evs ++ (syncPushLoop env env.syncs).1 ++
                [Ev.hostsSaved (syncPushLoop env env.syncs).2]
              match env.saveHosts2 with
              | some e => (evs2, .failed e)
              | none => (evs2, .done)

/-- uiContext.sync: the whole engine run.  A first-UpdateSnapshot error
returns it; otherwise the run is the pull loop over every peer followed by
the merge/rebuild/push tail, whose printed events follow the pull-loop
trace. -/
def sync (env : SyncEnv) (push : Bool) : List Ev × SyncRes :=
  match env.us1 with
  | some e => ([], .failed e)
  | none =>
    ((syncPullLoop env env.syncs).1 ++ (syncTail env push).1, (syncTail env push).2)

/-! ## Concrete fixtures used by witnesses and counterexamples -/

/-- A concrete transaction. -/
def sampleTx : Tx := ⟨0, 0, [], [], [], []⟩

/-- A merge oracle that reports one delete/edit conflict. -/
def oneConflictMerge : List Tx → List Tx → List Conflict → List Tx × List Conflict :=
  fun _ _ _ => ([], [⟨sampleTx, sampleTx⟩])

/-- A concrete sync environment with no peers whose post-merge
UpdateSnapshot fails. -/
def rebuildFailEnv : SyncEnv :=
  ⟨none, [], fun _ => ([], .ok []), [], fun _ => [], fun _ => [], fun _ => [],
    fun _ => .ok [], fun _ _ _ => ([], []), [], [], some [], none,
    .ok [], .ok [], fun _ => ([], none), none⟩

/-- A concrete sync environment with one peer whose pull fails with the
scp not-found error. -/
def notFoundEnv : SyncEnv :=
  ⟨none, [['u']], fun _ => ([], .scp ⟨1, notFoundNeedle⟩), [], fun _ => [],
    fun _ => [], fun _ => [], fun _ => .ok [], fun _ _ _ => ([], []), [], [],
    none, none, .ok [], .ok [], fun _ => ([], none), none⟩

/-! ## Helper lemmas about the sync trace -/

theorem pullStep_shapes (env : SyncEnv) (u : Uuid) :
    ∀ ev ∈ (pullStep env u).1,
      ev = Ev.pulled u ∨ ev = Ev.pullErrorReported u ∨ ev = Ev.decryptFailReported u ∨
        ev = Ev.parseFailReported u ∨ ev = Ev.logCollected u := by
  intro ev h
  unfold pullStep at h
  repeat' split at h
  all_goals simp_all
  all_goals tauto

theorem pullStep_pulled (env : SyncEnv) (u : Uuid) : Ev.pulled u ∈ (pullStep env u).1 := by
  unfold pullStep
  repeat' split
  all_goals simp

theorem pullLoop_shapes (env : SyncEnv) :
    ∀ (l : List Uuid) (ev : Ev), ev ∈ (syncPullLoop env l).1 →
      ∃ u, ev = Ev.pulled u ∨ ev = Ev.pullErrorReported u ∨ ev = Ev.decryptFailReported u ∨
        ev = Ev.parseFailReported u ∨ ev = Ev.logCollected u := by
  intro l
  induction l with
  | nil => intro ev h; simp [syncPullLoop] at h
  | cons u rest ih =>
    intro ev h
    simp only [syncPullLoop] at h
    rcases List.mem_append.mp h with h2 | h2
    · exact ⟨u, pullStep_shapes env u ev h2⟩
    · exact ih ev h2

theorem pullLoop_pulled (env : SyncEnv) :
    ∀ (l : List Uuid) (u : Uuid), u ∈ l → Ev.pulled u ∈ (syncPullLoop env l).1 := by
  intro l
  induction l with
  | nil => intro u h; simp at h
  | cons v rest ih =>
    intro u h
    simp only [syncPullLoop]
    rcases List.mem_cons.mp h with h2 | h2
    · subst h2; exact List.mem_append_left _ (pullStep_pulled env u)
    · exact List.mem_append_right _ (ih u h2)

theorem pullLoop_notFound_clean (env : SyncEnv) (u : Uuid)
    (h : pullBlobClassify (env.sshPull u).2 = .notFound) :
    ∀ l : List Uuid, Ev.pullErrorReported u ∉ (syncPullLoop env l).1 ∧
      Ev.logCollected u ∉ (syncPullLoop env l).1 := by
  intro l
  induction l with
  | nil => simp [syncPullLoop]
  | cons v rest ih =>
    simp only [syncPullLoop, List.mem_append]
    constructor
    · rintro (h2 | h2)
      · by_cases hvu : v = u
        · subst hvu
          unfold pullStep at h2
          rw [h] at h2
          simp at h2
        · rcases pullStep_shapes env v _ h2 with h3 | h3 | h3 | h3 | h3 <;> simp_all
      · exact ih.1 h2
    · rintro (h2 | h2)
      · by_cases hvu : v = u
        · subst hvu
          unfold pullStep at h2
          rw [h] at h2
          simp at h2
        · rcases pullStep_shapes env v _ h2 with h3 | h3 | h3 | h3 | h3 <;> simp_all
      · exact ih.2 h2

theorem pushLoop_shapes (env : SyncEnv) :
    ∀ (l : List Uuid) (ev : Ev), ev ∈ (syncPushLoop env l).1 →
      (∃ u, ev = Ev.pushed u) ∨ ∃ u, ev = Ev.pushErrorReported u := by
  intro l
  induction l with
  | nil => intro ev h; simp [syncPushLoop] at h
  | cons u rest ih =>
    intro ev h
    simp only [syncPushLoop] at h
    rcases List.mem_append.mp h with h2 | h2
    · split at h2 <;> (simp_all; try tauto)
    · exact ih ev h2

/-- Events appearing after the pull loop in any branch of sync. -/
def tailEv (ev : Ev) : Prop :=
  ev = Ev.mergeAbortReported ∨ ev = Ev.snapshotReset ∨ ev = Ev.logReplaced ∨
    ev = Ev.rebuildFailReported ∨ (∃ hs, ev = Ev.hostsSaved hs) ∨
    (∃ u, ev = Ev.pushed u) ∨ ∃ u, ev = Ev.pushErrorReported u

theorem syncTail_trace_cases (env : SyncEnv) (push : Bool) :
    (syncTail env push).1 = [Ev.mergeAbortReported] ∨
    (syncTail env push).1 = [Ev.snapshotReset, Ev.logReplaced, Ev.rebuildFailReported] ∨
    (syncTail env push).1 = [Ev.snapshotReset, Ev.logReplaced,
        Ev.hostsSaved (syncPullLoop env env.syncs).2.1] ∨
    (syncTail env push).1 = [Ev.snapshotReset, Ev.logReplaced,
        Ev.hostsSaved (syncPullLoop env env.syncs).2.1] ++ (syncPushLoop env env.syncs).1 ++
        [Ev.hostsSaved (syncPushLoop env env.syncs).2] := by
  unfold syncTail
  repeat' split
  all_goals simp

theorem syncTail_shapes (env : SyncEnv) (push : Bool) :
    ∀ ev ∈ (syncTail env push).1, tailEv ev := by
  intro ev h
  rcases syncTail_trace_cases env push with hc | hc | hc | hc <;> rw [hc] at h
  · simp only [List.mem_singleton] at h
    simp [tailEv, h]
  · simp only [List.mem_cons, List.not_mem_nil, or_false] at h
    rcases h with h | h | h <;> simp [tailEv, h]
  · simp only [List.mem_cons, List.not_mem_nil, or_false] at h
    rcases h with h | h | h <;> simp [tailEv, h]
  · simp only [List.mem_append, List.mem_cons, List.not_mem_nil, or_false,
      List.mem_singleton] at h
    rcases h with ((h | h | h) | h) | h
    · simp [tailEv, h]
    · simp [tailEv, h]
    · simp [tailEv, h]
    · rcases pushLoop_shapes env env.syncs ev h with h8 | h8 <;> simp [tailEv, h8]
    · simp [tailEv, h]

theorem sync_trace_decomp (env : SyncEnv) (push : Bool) (h1 : env.us1 = none) :
    (sync env push).1 = (syncPullLoop env env.syncs).1 ++ (syncTail env push).1 ∧
      ∀ ev ∈ (syncTail env push).1, tailEv ev := by
  constructor
  · unfold sync
    rw [h1]
  · exact syncTail_shapes env push

theorem syncTail_exits_iff (env : SyncEnv) (push : Bool) :
    (syncTail env push).2 = .exited 1 ↔
      (∃ out, syncMergeResult env = .ok out) ∧ env.us2 ≠ none := by
  unfold syncTail
  rcases h2 : syncMergeResult env with e2 | out
  · simp
  · rcases h3 : env.us2 with _ | e3
    · rcases h4 : env.saveHosts1 with _ | e4
      · by_cases hp : push = false
        · subst hp; simp
        · simp only [if_neg hp]
          rcases h5 : env.saveRes with e5 | pt
          · simp
          · rcases h6 : env.encRes with e6 | ct
            · simp
            · rcases h7 : env.saveHosts2 with _ | e7 <;> simp
      · simp
    · simp [h3]

theorem sync_exits_iff (env : SyncEnv) (push : Bool) :
    (sync env push).2 = .exited 1 ↔
      env.us1 = none ∧ (∃ out, syncMergeResult env = .ok out) ∧ env.us2 ≠ none := by
  unfold sync
  rcases h1 : env.us1 with _ | e1
  · simpa using syncTail_exits_iff env push
  · simp

/-! ## Claim theorems about the sync engine -/

/-- C1: when rebuilding the snapshot fails after the local log has been
replaced by the merged log, sync exits the process with the non-zero code
1 and performs no further local writes — no host-key persistence and no
push; and this is the only branch of sync that produces a process exit,
every other branch returns normally. -/
theorem sync_fatal_on_rebuild_failure (env : SyncEnv) (push : Bool) :
    ((sync env push).2 = .exited 1 ↔
      env.us1 = none ∧ (∃ out, syncMergeResult env = .ok out) ∧ env.us2 ≠ none) ∧
    (env.us1 = none → (∃ out, syncMergeResult env = .ok out) → env.us2 ≠ none →
      (∀ hs, Ev.hostsSaved hs ∉ (sync env push).1) ∧
      (∀ u, Ev.pushed u ∉ (sync env push).1) ∧
      ∀ u, Ev.pushErrorReported u ∉ (sync env push).1) := by
  refine ⟨sync_exits_iff env push, ?_⟩
  intro h1 h2 h3
  obtain ⟨out, h2⟩ := h2
  obtain ⟨e3, h3⟩ := Option.ne_none_iff_exists'.mp h3
  have htail : (syncTail env push).1 =
      [Ev.snapshotReset, Ev.logReplaced, Ev.rebuildFailReported] := by
    unfold syncTail
    rw [h2, h3]
  have htr : (sync env push).1 = (syncPullLoop env env.syncs).1 ++
      [Ev.snapshotReset, Ev.logReplaced, Ev.rebuildFailReported] := by
    rw [(sync_trace_decomp env push h1).1, htail]
  refine ⟨?_, ?_, ?_⟩ <;> intro x <;> rw [htr] <;> intro hx <;>
    rcases List.mem_append.mp hx with hm | hm
  · rcases pullLoop_shapes env env.syncs _ hm with ⟨u2, h5 | h5 | h5 | h5 | h5⟩ <;> simp_all
  · simp at hm
  · rcases pullLoop_shapes env env.syncs _ hm with ⟨u2, h5 | h5 | h5 | h5 | h5⟩ <;> simp_all
  · simp at hm
  · rcases pullLoop_shapes env env.syncs _ hm with ⟨u2, h5 | h5 | h5 | h5 | h5⟩ <;> simp_all
  · simp at hm

/-- Witness for sync_fatal_on_rebuild_failure: a concrete environment
whose post-merge UpdateSnapshot fails makes sync exit with code 1. -/
theorem sync_fatal_on_rebuild_failure_witness :
    (sync rebuildFailEnv true).2 = .exited 1 :=
  (sync_fatal_on_rebuild_failure rebuildFailEnv true).1.mpr
    ⟨rfl, ⟨[], rfl⟩, by decide⟩

/-- C2 (amended): while decryption keeps failing with ErrWrongPassphrase,
decryptBlob re-prompts without bound; a prompt error makes it return the
(nil, nil) skip with no error, and the pull loop of sync still visits
every peer, so sync continues with the remaining peers. -/
theorem decryptBlob_unbounded_retry_abort_skip :
    (∀ (dec : Str → DecRes) (pass : Str) (e : PErr) (rest : List PromptR),
      dec pass = .wrongPass →
      decryptBlob dec pass (.fail e :: rest) = (.skip, 1)) ∧
    (∀ (dec : Str → DecRes) (pass p : Str) (rest : List PromptR),
      dec pass = .wrongPass → p ≠ [] →
      decryptBlob dec pass (.line p :: rest) =
        ((decryptBlob dec p rest).1, (decryptBlob dec p rest).2 + 1)) ∧
    ∀ (env : SyncEnv) (push : Bool) (u : Uuid),
      env.us1 = none → u ∈ env.syncs → Ev.pulled u ∈ (sync env push).1 := by
  refine ⟨?_, ?_, ?_⟩
  · intro dec pass e rest h
    simp [decryptBlob, h]
  · intro dec pass p rest h hp
    simp [decryptBlob, h, hp]
  · intro env push u h1 hu
    rw [(sync_trace_decomp env push h1).1]
    exact List.mem_append_left _ (pullLoop_pulled env env.syncs u hu)

/-- Witness for decryptBlob_unbounded_retry_abort_skip: an aborted prompt
after one wrong-passphrase attempt yields the skip return. -/
theorem decryptBlob_unbounded_retry_abort_skip_witness :
    decryptBlob (specDecrypt ['p'] []) ['a'] [.fail .eof] = (.skip, 1) :=
  decryptBlob_unbounded_retry_abort_skip.1 (specDecrypt ['p'] []) ['a'] .eof []
    (by decide)

/-- C2 counterexample: with the correct passphrase entered only at the
third prompt, decryptBlob keeps prompting past one retry round (three
prompts) and then succeeds, instead of skipping the peer after one retry
round. -/
theorem decryptBlob_one_retry_cex :
    decryptBlob (specDecrypt ['p'] [7]) ['a']
      [.line ['b'], .line ['c'], .line ['p']] = (.ok [7], 3) := by decide

/-- C4: an scp pull error is classified as not-found exactly when its
code is 1 and its message contains the phrase, ignoring case; a peer so
classified is treated as empty — no error is reported for it, no log of
it is collected, and the pull loop still visits every peer, so the sync
does not abort. -/
theorem scp_notfound_empty_peer :
    (∀ e : ScpErr, isNotFoundErr e = true ↔
      e.code = 1 ∧ containsSub (lowerStr notFoundNeedle) (lowerStr e.msg) = true) ∧
    (∀ e : ScpErr, pullBlobClassify (.scp e) = .notFound ↔ isNotFoundErr e = true) ∧
    ∀ (env : SyncEnv) (push : Bool) (u : Uuid) (e : ScpErr),
      env.us1 = none → u ∈ env.syncs → (env.sshPull u).2 = .scp e →
      isNotFoundErr e = true →
      Ev.pullErrorReported u ∉ (sync env push).1 ∧
      Ev.logCollected u ∉ (sync env push).1 ∧
      ∀ v ∈ env.syncs, Ev.pulled v ∈ (sync env push).1 := by
  have hlow : lowerStr notFoundNeedle = notFoundNeedle := by decide
  refine ⟨?_, ?_, ?_⟩
  · intro e
    rw [hlow]
    simp [isNotFoundErr]
  · intro e
    unfold pullBlobClassify
    by_cases h : isNotFoundErr e = true
    · simp [h]
    · simp [h]
  · intro env push u e h1 hu hpull hnf
    have hcl : pullBlobClassify (env.sshPull u).2 = .notFound := by
      rw [hpull]
      simp [pullBlobClassify, hnf]
    have hdc := sync_trace_decomp env push h1
    refine ⟨?_, ?_, ?_⟩
    · rw [hdc.1]
      intro hx
      rcases List.mem_append.mp hx with hm | hm
      · exact (pullLoop_notFound_clean env u hcl env.syncs).1 hm
      · have h9 := hdc.2 _ hm
        simp [tailEv] at h9
    · rw [hdc.1]
      intro hx
      rcases List.mem_append.mp hx with hm | hm
      · exact (pullLoop_notFound_clean env u hcl env.syncs).2 hm
      · have h9 := hdc.2 _ hm
        simp [tailEv] at h9
    · intro v hv
      rw [hdc.1]
      exact List.mem_append_left _ (pullLoop_pulled env env.syncs v hv)

/-- Witness for scp_notfound_empty_peer: a code-1 scp error whose message
carries the phrase in mixed case is classified not-found. -/
theorem scp_notfound_empty_peer_witness :
    isNotFoundErr ⟨1, "scp: x: No Such File or Directory".toList⟩ = true :=
  (scp_notfound_empty_peer.1 ⟨1, "scp: x: No Such File or Directory".toList⟩).mpr
    ⟨rfl, by decide⟩

/-- C3 (code bug evidence): the conflict-resolution loop of mergeLogs
cannot terminate normally.  Entering r records the Restore and prompts
the same conflict again, so once Merge reports a conflict, mergeLogs can
only return a prompt error — never the merged log; a prompt abort is
propagated as that error, and sync then returns normally with no snapshot
reset and no log replacement.  Concretely, answering r for the only
conflict still ends in the end-of-input error. -/
theorem mergeLogs_conflict_loop_never_returns :
    (∀ rest : List PromptR,
      resolveLoop (.line ['r'] :: rest) =
        ((resolveLoop rest).1, (resolveLoop rest).2.1 + 1, (resolveLoop rest).2.2.1,
          (resolveLoop rest).2.2.2)) ∧
    (∀ (merge : List Tx → List Tx → List Conflict → List Tx × List Conflict)
        (inL log : List Tx) (rest : List (List Tx)) (prompts : List PromptR),
      (merge inL log []).2 ≠ [] →
      ∃ e, mergeLogs merge inL (log :: rest) prompts = .error e) ∧
    (∀ (merge : List Tx → List Tx → List Conflict → List Tx × List Conflict)
        (inL log : List Tx) (rest : List (List Tx)) (ps : List PromptR) (e : PErr),
      (merge inL log []).2 ≠ [] →
      mergeLogs merge inL (log :: rest) (.fail e :: ps) = .error e) ∧
    (∀ (env : SyncEnv) (push : Bool) (e : PErr),
      env.us1 = none → syncMergeResult env = .error e →
      (sync env push).2 = .done ∧
      Ev.snapshotReset ∉ (sync env push).1 ∧ Ev.logReplaced ∉ (sync env push).1) ∧
    mergeLogs oneConflictMerge [] [[sampleTx]] [.line ['r']] = .error .eof := by
  refine ⟨?_, ?_, ?_, ?_, ?_⟩
  · intro rest
    simp [resolveLoop]
  · intro merge inL log rest prompts h
    cases hm : (merge inL log []).2 with
    | nil => exact absurd hm h
    | cons c cs =>
      exact ⟨(resolveLoop prompts).1, by simp [mergeLogs, mergeLogsLoop, conflictLoop, hm]⟩
  · intro merge inL log rest ps e h
    cases hm : (merge inL log []).2 with
    | nil => exact absurd hm h
    | cons c cs =>
      simp [mergeLogs, mergeLogsLoop, conflictLoop, resolveLoop, hm]
  · intro env push e h1 h2
    have htail : syncTail env push = ([Ev.mergeAbortReported], SyncRes.done) := by
      unfold syncTail
      rw [h2]
    refine ⟨?_, ?_, ?_⟩
    · unfold sync
      rw [h1]
      simp [htail]
    · rw [(sync_trace_decomp env push h1).1, htail]
      intro hx
      rcases List.mem_append.mp hx with hm | hm
      · rcases pullLoop_shapes env env.syncs _ hm with ⟨u2, h5 | h5 | h5 | h5 | h5⟩ <;> simp_all
      · simp at hm
    · rw [(sync_trace_decomp env push h1).1, htail]
      intro hx
      rcases List.mem_append.mp hx with hm | hm
      · rcases pullLoop_shapes env env.syncs _ hm with ⟨u2, h5 | h5 | h5 | h5 | h5⟩ <;> simp_all
      · simp at hm
  · rfl

/-- Witness for mergeLogs_conflict_loop_never_returns: one conflict and
an interrupted prompt propagate the interrupt out of mergeLogs. -/
theorem mergeLogs_conflict_loop_never_returns_witness :
    mergeLogs oneConflictMerge [] [[sampleTx]] [.fail .interrupt] = .error .interrupt :=
  mergeLogs_conflict_loop_never_returns.2.2.1 oneConflictMerge [] [sampleTx] [] []
    .interrupt (by decide)

/-! ## Helper lemmas about string splitting -/

theorem splitCharAux_no_sep (c : Char) (s : Str) (h : c ∉ s) :
    ∀ acc, splitCharAux c s acc = [acc.reverse ++ s] := by
  induction s with
  | nil => intro acc; simp [splitCharAux]
  | cons x rest ih =>
    intro acc
    have hx : ¬x = c := by
      intro he
      subst he
      exact h (List.mem_cons_self x rest)
    simp only [splitCharAux, if_neg hx, List.append_eq]
    rw [ih (fun hm => h (List.mem_cons_of_mem x hm)) (x :: acc)]
    simp

theorem splitCharAux_sep (c : Char) (s1 s2 : Str) (h : c ∉ s1) :
    ∀ acc, splitCharAux c (s1 ++ c :: s2) acc =
      (acc.reverse ++ s1) :: splitCharAux c s2 [] := by
  induction s1 with
  | nil => intro acc; simp [splitCharAux]
  | cons x rest ih =>
    intro acc
    have hx : ¬x = c := by
      intro he
      subst he
      exact h (List.mem_cons_self x rest)
    simp only [List.cons_append, splitCharAux, if_neg hx, List.append_eq]
    rw [ih (fun hm => h (List.mem_cons_of_mem x hm)) (x :: acc)]
    simp

theorem splitChar_no_sep (c : Char) (s : Str) (h : c ∉ s) : splitChar c s = [s] := by
  unfold splitChar
  rw [splitCharAux_no_sep c s h []]
  simp

theorem splitChar_sep (c : Char) (s1 s2 : Str) (h : c ∉ s1) :
    splitChar c (s1 ++ c :: s2) = s1 :: splitChar c s2 := by
  unfold splitChar
  rw [splitCharAux_sep c s1 s2 h []]
  simp [splitChar]

theorem splitChar_two (f0 f1 : Str) (h0 : ' ' ∉ f0) (h1 : ' ' ∉ f1) :
    splitChar ' ' (f0 ++ ' ' :: f1) = [f0, f1] := by
  rw [splitChar_sep _ _ _ h0, splitChar_no_sep _ _ h1]

theorem splitChar_three (f0 f1 f2 : Str) (h0 : ' ' ∉ f0) (h1 : ' ' ∉ f1) (h2 : ' ' ∉ f2) :
    splitChar ' ' (f0 ++ ' ' :: (f1 ++ ' ' :: f2)) = [f0, f1, f2] := by
  rw [splitChar_sep _ _ _ h0, splitChar_two _ _ h1 h2]

theorem splitChar_four (f0 f1 f2 f3 : Str) (h0 : ' ' ∉ f0) (h1 : ' ' ∉ f1)
    (h2 : ' ' ∉ f2) (h3 : ' ' ∉ f3) :
    splitChar ' ' (f0 ++ ' ' :: (f1 ++ ' ' :: (f2 ++ ' ' :: f3))) = [f0, f1, f2, f3] := by
  rw [splitChar_sep _ _ _ h0, splitChar_three _ _ _ h1 h2 h3]

theorem not_mem_join2 (x : Char) (a b : Str) (hx : x ≠ ' ') (h0 : x ∉ a) (h1 : x ∉ b) :
    x ∉ a ++ ' ' :: b := by
  intro hm
  simp only [List.mem_append, List.mem_cons] at hm
  rcases hm with hm | hm | hm
  · exact h0 hm
  · exact hx hm
  · exact h1 hm

theorem not_mem_join3 (x : Char) (a b c : Str) (hx : x ≠ ' ')
    (h0 : x ∉ a) (h1 : x ∉ b) (h2 : x ∉ c) : x ∉ a ++ ' ' :: (b ++ ' ' :: c) :=
  not_mem_join2 x a (b ++ ' ' :: c) hx h0 (not_mem_join2 x b c hx h1 h2)

theorem not_mem_join4 (x : Char) (a b c d : Str) (hx : x ≠ ' ')
    (h0 : x ∉ a) (h1 : x ∉ b) (h2 : x ∉ c) (h3 : x ∉ d) :
    x ∉ a ++ ' ' :: (b ++ ' ' :: (c ++ ' ' :: d)) :=
  not_mem_join2 x a (b ++ ' ' :: (c ++ ' ' :: d)) hx h0 (not_mem_join3 x b c d hx h1 h2 h3)

/-! ## Claim theorems about the host-key callback -/

/-- C5: against a stored four-field line for the connecting hostname, the
callback hard-errors when the key type differs, hard-errors when the key
hash differs, and succeeds without consulting the prompt when both match;
and a first-seen host accepted with y is recorded as exactly the
four-field line hostname, remote address, key type, lowercase hex sha256
of the marshalled key. -/
theorem hostKey_callback_matching (hostname addr addr0 t hh keyType : Str)
    (hashBytes : Bytes)
    (hs0 : ' ' ∉ hostname) (hn0 : '\n' ∉ hostname)
    (hs1 : ' ' ∉ addr0) (hn1 : '\n' ∉ addr0)
    (hs2 : ' ' ∉ t) (hn2 : '\n' ∉ t)
    (hs3 : ' ' ∉ hh) (hn3 : '\n' ∉ hh) :
    (t = keyType → hh = hexBytes hashBytes → ∀ prompt,
      hostCallback hostname addr keyType hashBytes
        (hostname ++ ' ' :: (addr0 ++ ' ' :: (t ++ ' ' :: hh))) prompt = .ok none) ∧
    (t ≠ keyType → ∀ prompt,
      hostCallback hostname addr keyType hashBytes
        (hostname ++ ' ' :: (addr0 ++ ' ' :: (t ++ ' ' :: hh))) prompt =
        .fail "known host key type changed".toList) ∧
    (t = keyType → hh ≠ hexBytes hashBytes → ∀ prompt,
      hostCallback hostname addr keyType hashBytes
        (hostname ++ ' ' :: (addr0 ++ ' ' :: (t ++ ' ' :: hh))) prompt =
        .fail "known host key changed".toList) ∧
    (hostname ≠ [] →
      hostCallback hostname addr keyType hashBytes [] (.line ['y']) =
        .ok (some (hostname ++ ' ' :: (addr ++ ' ' :: (keyType ++ ' ' :: hexBytes hashBytes))))) := by
  have hnl : splitChar '\n' (hostname ++ ' ' :: (addr0 ++ ' ' :: (t ++ ' ' :: hh))) =
      [hostname ++ ' ' :: (addr0 ++ ' ' :: (t ++ ' ' :: hh))] :=
    splitChar_no_sep _ _ (not_mem_join4 _ _ _ _ _ (by decide) hn0 hn1 hn2 hn3)
  have hsp := splitChar_four hostname addr0 t hh hs0 hs1 hs2 hs3
  refine ⟨?_, ?_, ?_, ?_⟩
  · intro ht hhh prompt
    subst ht
    subst hhh
    simp [hostCallback, hnl, scanKnown, hsp]
  · intro ht prompt
    simp [hostCallback, hnl, scanKnown, hsp, ht]
  · intro ht hhh prompt
    subst ht
    simp [hostCallback, hnl, scanKnown, hsp, hhh]
  · intro hne
    have hnl2 : splitChar '\n' ([] : Str) = [[]] := by simp [splitChar, splitCharAux]
    have hsp2 : splitChar ' ' ([] : Str) = [[]] := by simp [splitChar, splitCharAux]
    have hne2 : ¬([] : Str) = hostname := fun he => hne he.symm
    simp [hostCallback, hnl2, scanKnown, hsp2, hne2]

/-- Witness for hostKey_callback_matching: a matching stored line returns
success without prompting. -/
theorem hostKey_callback_matching_witness :
    hostCallback "h".toList "1.2.3.4".toList "ssh-rsa".toList [171, 205]
      ("h".toList ++ ' ' :: ("9.9.9.9".toList ++ ' ' :: ("ssh-rsa".toList ++ ' ' :: "abcd".toList)))
      (.line ['n']) = .ok none :=
  (hostKey_callback_matching "h".toList "1.2.3.4".toList "9.9.9.9".toList
    "ssh-rsa".toList "abcd".toList "ssh-rsa".toList [171, 205]
    (by decide) (by decide) (by decide) (by decide) (by decide) (by decide)
    (by decide) (by decide)).1 rfl (by decide) (.line ['n'])

/-- C10 (amended): a stored line whose first field is the connecting
hostname panics on the unguarded field accesses only when the accessed
index is missing: a one-field or two-field line panics at field 2; a
three-field line panics at field 3 exactly when its third field equals
the connecting key type, and otherwise returns the key-type-changed
error rather than panicking. -/
theorem hostKey_callback_short_lines (hostname addr keyType f1 t : Str)
    (hashBytes : Bytes) (prompt : PromptR)
    (hs0 : ' ' ∉ hostname) (hn0 : '\n' ∉ hostname)
    (hs1 : ' ' ∉ f1) (hn1 : '\n' ∉ f1)
    (hs2 : ' ' ∉ t) (hn2 : '\n' ∉ t) :
    hostCallback hostname addr keyType hashBytes hostname prompt = .panic ∧
    hostCallback hostname addr keyType hashBytes (hostname ++ ' ' :: f1) prompt = .panic ∧
    (t = keyType →
      hostCallback hostname addr keyType hashBytes
        (hostname ++ ' ' :: (f1 ++ ' ' :: t)) prompt = .panic) ∧
    (t ≠ keyType →
      hostCallback hostname addr keyType hashBytes
        (hostname ++ ' ' :: (f1 ++ ' ' :: t)) prompt =
        .fail "known host key type changed".toList) := by
  refine ⟨?_, ?_, ?_, ?_⟩
  · have hnl := splitChar_no_sep '\n' hostname hn0
    have hsp := splitChar_no_sep ' ' hostname hs0
    simp [hostCallback, hnl, scanKnown, hsp]
  · have hnl := splitChar_no_sep '\n' (hostname ++ ' ' :: f1)
      (not_mem_join2 _ _ _ (by decide) hn0 hn1)
    have hsp := splitChar_two hostname f1 hs0 hs1
    simp [hostCallback, hnl, scanKnown, hsp]
  · intro ht
    subst ht
    have hnl := splitChar_no_sep '\n' (hostname ++ ' ' :: (f1 ++ ' ' :: t))
      (not_mem_join3 _ _ _ _ (by decide) hn0 hn1 hn2)
    have hsp := splitChar_three hostname f1 t hs0 hs1 hs2
    simp [hostCallback, hnl, scanKnown, hsp]
  · intro ht
    have hnl := splitChar_no_sep '\n' (hostname ++ ' ' :: (f1 ++ ' ' :: t))
      (not_mem_join3 _ _ _ _ (by decide) hn0 hn1 hn2)
    have hsp := splitChar_three hostname f1 t hs0 hs1 hs2
    simp [hostCallback, hnl, scanKnown, hsp, ht]

/-- Witness for hostKey_callback_short_lines: a stored line that is just
the hostname makes the callback panic. -/
theorem hostKey_callback_short_lines_witness :
    hostCallback "h".toList "a".toList "t".toList [1] "h".toList (.line ['y']) = .panic :=
  (hostKey_callback_short_lines "h".toList "a".toList "t".toList [] [] [1] (.line ['y'])
    (by decide) (by decide) (by decide) (by decide) (by decide) (by decide)).1

/-- C10 counterexample: a stored three-field line (fewer than four
fields) whose first field matches the connecting hostname but whose key
type differs returns the mitm error instead of panicking, so not every
matching line with fewer than four fields reaches an out-of-range field
access. -/
theorem hostKey_callback_three_fields_cex :
    hostCallback "h".toList "1.2.3.4".toList "ssh-ed25519".toList [171]
      "h 9.9.9.9 ssh-rsa".toList (.line ['y']) =
      .fail "known host key type changed".toList ∧
    hostCallback "h".toList "1.2.3.4".toList "ssh-ed25519".toList [171]
      "h 9.9.9.9 ssh-rsa".toList (.line ['y']) ≠ .panic := by
  constructor <;> decide

/-! ## Claim theorems about sshConfig -/

/-- C9: sshConfig slices uri.Path[1:] before its emptiness checks, so any
sync entry whose url parses with an empty path component panics at the
slice, and the url-missing-file-path error return is unreachable for such
an entry. -/
theorem sshConfig_empty_path_panics (host port user pass priv : Str) (pp : Bool) :
    sshConfig ⟨host, port, user, pass, []⟩ priv pp = .panic ∧
    sshConfig ⟨host, port, user, pass, []⟩ priv pp ≠
      .fail "url missing file path".toList := by
  have h : sshConfig ⟨host, port, user, pass, []⟩ priv pp = .panic := by
    simp [sshConfig, sliceFrom]
  refine ⟨h, ?_⟩
  rw [h]
  simp

/-- C8 counterexample: a sync url with no port is mapped to the dial
address host followed by a colon and an empty port — sshConfig applies no
default port 22. -/
theorem sshConfig_no_port_default_cex :
    sshConfig ⟨"host".toList, [], "user".toList, [], "/file".toList⟩ [] true =
      .ok "host:".toList "file".toList ∧
    sshConfig ⟨"host".toList, [], "user".toList, [], "/file".toList⟩ [] true ≠
      .ok "host:22".toList "file".toList := by
  constructor <;> decide

/-- C8 (amended): sshConfig maps the sync url components to the dial
address hostname:port with the port copied verbatim — empty when the url
carries none, no default of 22 is applied here (the 22 default is applied
at entry-creation time by the sync-add prompt) — and to the remote path
obtained by dropping the first character of the url path, so a
single-slash url path is relative to the remote home and a double-slash
url path stays absolute. -/
theorem sshConfig_mapping (uri : GoURL) (rest : Str)
    (hu : uri.username ≠ []) (hh : uri.hostname ≠ [])
    (hc : ':' ∉ uri.hostname) (hp : '%' ∉ uri.hostname)
    (hpath : uri.path = '/' :: rest) (hr : rest ≠ []) :
    sshConfig uri [] true = .ok (uri.hostname ++ ':' :: uri.port) rest ∧
    (rest.head? = some '/' ↔ ∃ r2, uri.path = '/' :: '/' :: r2) := by
  constructor
  · have hs : sliceFrom uri.path 1 = some rest := by
      rw [hpath]
      simp [sliceFrom]
    simp [sshConfig, hs, hu, hh, hr, joinHostPort, hc, hp]
  · cases rest with
    | nil => simp [hpath]
    | cons x rs =>
      constructor
      · intro hx
        simp only [List.head?_cons, Option.some.injEq] at hx
        subst hx
        exact ⟨rs, by rw [hpath]⟩
      · rintro ⟨r2, hre⟩
        rw [hpath] at hre
        simp only [List.cons.injEq] at hre
        obtain ⟨h7, h8⟩ := hre
        simp [h8.1]

/-- Witness for sshConfig_mapping at a concrete url with an explicit
port and a home-relative path. -/
theorem sshConfig_mapping_witness :
    sshConfig ⟨"h".toList, "2222".toList, "u".toList, [], "/a/b".toList⟩ [] true =
      .ok "h:2222".toList "a/b".toList :=
  (sshConfig_mapping ⟨"h".toList, "2222".toList, "u".toList, [], "/a/b".toList⟩
    "a/b".toList (by decide) (by decide) (by decide) (by decide) (by decide)
    (by decide)).1

/-! ## Helper lemmas for the scp wire format -/

theorem digitsAux_digits (base : Nat) (hb2 : 2 ≤ base) (hb10 : base ≤ 10) :
    ∀ fuel n, ∀ b ∈ digitsAux base fuel n, 48 ≤ b ∧ b ≤ 57 := by
  intro fuel
  induction fuel with
  | zero => intro n b hb; simp [digitsAux] at hb
  | succ f ih =>
    intro n b hb
    simp only [digitsAux] at hb
    split at hb
    · simp at hb
    · rcases List.mem_append.mp hb with h | h
      · exact ih _ _ h
      · simp only [List.mem_singleton] at h
        subst h
        have hm : n % base < base := Nat.mod_lt _ (by omega)
        omega

theorem natAscii_digits (base n : Nat) (hb2 : 2 ≤ base) (hb10 : base ≤ 10) :
    ∀ b ∈ natAscii base n, 48 ≤ b ∧ b ≤ 57 := by
  intro b hb
  unfold natAscii at hb
  split at hb
  · simp at hb
    omega
  · exact digitsAux_digits base hb2 hb10 n n b hb

theorem digitsAux_ne_nil (base : Nat) :
    ∀ fuel n, n ≠ 0 → n ≤ fuel → digitsAux base fuel n ≠ [] := by
  intro fuel
  cases fuel with
  | zero => intro n h0 hle; omega
  | succ f =>
    intro n h0 hle
    simp [digitsAux, h0]

theorem natAscii_ne_nil (base n : Nat) : natAscii base n ≠ [] := by
  unfold natAscii
  split
  · simp
  · next h => exact digitsAux_ne_nil base n n h le_rfl

theorem isSpaceByte_digit (b : Nat) (h : 48 ≤ b) : isSpaceByte b = false := by
  simp only [isSpaceByte, Bool.or_eq_false_iff, Bool.and_eq_false_iff]
  constructor
  · simp only [beq_eq_false_iff_ne, ne_eq]
    omega
  · right
    simp only [decide_eq_false_iff_not, not_le]
    omega

theorem parseDigits_append (base : Nat) (xs ys : Bytes) :
    ∀ acc, parseDigits base acc (xs ++ ys) =
      (parseDigits base acc xs).bind (fun a => parseDigits base a ys) := by
  induction xs with
  | nil => intro acc; simp [parseDigits]
  | cons b rest ih =>
    intro acc
    simp only [List.cons_append, parseDigits]
    cases h : digitVal base b with
    | none => simp
    | some d => simp [ih]

theorem digitVal_digit (base r : Nat) (h : r < base) :
    digitVal base (48 + r) = some r := by
  unfold digitVal
  rw [if_pos (by omega)]
  congr 1
  omega

theorem parseDigits_digitsAux (base : Nat) (hb2 : 2 ≤ base) :
    ∀ fuel n acc, n ≤ fuel →
      parseDigits base acc (digitsAux base fuel n) =
        some (acc * base ^ (digitsAux base fuel n).length + n) := by
  intro fuel
  induction fuel with
  | zero =>
    intro n acc hle
    have h0 : n = 0 := by omega
    subst h0
    simp [digitsAux, parseDigits]
  | succ f ih =>
    intro n acc hle
    by_cases h0 : n = 0
    · subst h0
      simp [digitsAux, parseDigits]
    · have hstep : digitsAux base (f + 1) n =
          digitsAux base f (n / base) ++ [48 + n % base] := by
        simp [digitsAux, h0]
      have hdiv : n / base ≤ f := by
        have h1 : n / base < n := Nat.div_lt_self (by omega) (by omega)
        omega
      have hdv : digitVal base (48 + n % base) = some (n % base) :=
        digitVal_digit base (n % base) (Nat.mod_lt _ (by omega))
      rw [hstep, parseDigits_append, ih (n / base) acc hdiv]
      simp only [Option.some_bind, parseDigits, hdv, List.length_append,
        List.length_singleton, Option.some.injEq]
      calc (acc * base ^ (digitsAux base f (n / base)).length + n / base) * base + n % base
          = acc * (base ^ (digitsAux base f (n / base)).length * base) +
              (n / base * base + n % base) := by ring
        _ = acc * base ^ ((digitsAux base f (n / base)).length + 1) + n := by
              rw [pow_succ, Nat.div_add_mod']

theorem parseDigits_natAscii (base n : Nat) (hb2 : 2 ≤ base) :
    parseDigits base 0 (natAscii base n) = some n := by
  unfold natAscii
  split
  · next h =>
    subst h
    have hdv : digitVal base 48 = some 0 := by
      have h48 : (48 : Nat) = 48 + 0 := rfl
      rw [h48]
      exact digitVal_digit base 0 (by omega)
    simp [parseDigits, hdv]
  · rw [parseDigits_digitsAux base hb2 n n 0 le_rfl]
    simp

theorem parseDigits_zero_cons (base : Nat) (hb2 : 2 ≤ base) (s : Bytes) :
    parseDigits base 0 (48 :: s) = parseDigits base 0 s := by
  have hdv : digitVal base 48 = some 0 := by
    have h48 : (48 : Nat) = 48 + 0 := rfl
    rw [h48]
    exact digitVal_digit base 0 (by omega)
  simp [parseDigits, hdv]

theorem parseInt32_of_digit_head (base b : Nat) (s : Bytes) (hb : 48 ≤ b ∧ b ≤ 57) :
    parseInt32 base (b :: s) = parseMagPos base (b :: s) := by
  have hb43 : ¬b = 43 := by omega
  have hb45 : ¬b = 45 := by omega
  simp [parseInt32, hb43, hb45]

theorem parseMagPos_eval (base n : Nat) (b : Nat) (s : Bytes)
    (hv : parseDigits base 0 (b :: s) = some n) :
    parseMagPos base (b :: s) = if n ≤ 2 ^ 31 - 1 then some (n : Int) else none := by
  simp [parseMagPos, hv]

/-- strconv.ParseInt(·, base, 32) of the ASCII digits of a natural number
succeeds exactly below 2^31, returning that value. -/
theorem parseInt32_natAscii (base n : Nat) (hb2 : 2 ≤ base) (hb10 : base ≤ 10) :
    parseInt32 base (natAscii base n) =
      if n ≤ 2 ^ 31 - 1 then some (n : Int) else none := by
  cases hs : natAscii base n with
  | nil => exact absurd hs (natAscii_ne_nil base n)
  | cons b s =>
    have hd : 48 ≤ b ∧ b ≤ 57 := by
      have := natAscii_digits base n hb2 hb10 b (by rw [hs]; simp)
      exact this
    rw [parseInt32_of_digit_head base b s hd]
    have hv : parseDigits base 0 (b :: s) = some n := by
      rw [← hs]
      exact parseDigits_natAscii base n hb2
    exact parseMagPos_eval base n b s hv

theorem fieldsAux_word (w : Bytes) (hw : ∀ b ∈ w, isSpaceByte b = false) :
    ∀ rest acc, fieldsAux (w ++ rest) acc = fieldsAux rest (w.reverse ++ acc) := by
  induction w with
  | nil => intro rest acc; simp
  | cons b w2 ih =>
    intro rest acc
    have hb : isSpaceByte b = false := hw b (by simp)
    simp only [List.cons_append, fieldsAux, hb, Bool.false_eq_true, if_false,
      List.append_eq]
    rw [ih (fun x hx => hw x (by simp [hx])) rest (b :: acc)]
    simp

theorem fieldsAux_space (b : Nat) (hb : isSpaceByte b = true) (rest acc : Bytes)
    (hacc : acc ≠ []) :
    fieldsAux (b :: rest) acc = acc.reverse :: fieldsAux rest [] := by
  simp [fieldsAux, hb, hacc]

theorem goFields_three (w1 w2 w3 : Bytes)
    (h1 : ∀ b ∈ w1, isSpaceByte b = false) (n1 : w1 ≠ [])
    (h2 : ∀ b ∈ w2, isSpaceByte b = false) (n2 : w2 ≠ [])
    (h3 : ∀ b ∈ w3, isSpaceByte b = false) (n3 : w3 ≠ []) :
    goFields (w1 ++ 32 :: (w2 ++ 32 :: (w3 ++ [10]))) = [w1, w2, w3] := by
  unfold goFields
  rw [fieldsAux_word w1 h1, fieldsAux_space 32 (by decide) _ _ (by simp [n1])]
  rw [fieldsAux_word w2 h2, fieldsAux_space 32 (by decide) _ _ (by simp [n2])]
  rw [fieldsAux_word w3 h3, fieldsAux_space 10 (by decide) _ _ (by simp [n3])]
  simp [fieldsAux]

theorem takeLine_append (xs ys : Bytes) (h : ∀ b ∈ xs, b ≠ 10) :
    takeLine (xs ++ 10 :: ys) = some (xs ++ [10], ys) := by
  induction xs with
  | nil => simp [takeLine]
  | cons b rest ih =>
    have hb : ¬b = 10 := h b (by simp)
    simp only [List.cons_append, takeLine, if_neg hb, List.append_eq]
    rw [ih (fun x hx => h x (by simp [hx]))]

/-- readFileBytes on a well-formed three-field header line followed by a
body reduces to parsing the fields and reading the body. -/
theorem readFileBytes_header (w1 w2 w3 body : Bytes)
    (h1 : ∀ b ∈ w1, isSpaceByte b = false) (n1 : w1 ≠ [])
    (h2 : ∀ b ∈ w2, isSpaceByte b = false) (n2 : w2 ≠ [])
    (h3 : ∀ b ∈ w3, isSpaceByte b = false) (n3 : w3 ≠ []) :
    readFileBytes ((67 :: (w1 ++ 32 :: (w2 ++ 32 :: w3))) ++ 10 :: body) =
      (match parseInt32 8 w1 with
       | none => .fail .badMode
       | some mode =>
         match parseInt32 10 w2 with
         | none => .fail .badLength
         | some length => readFileBody length mode w3 body) := by
  have hno10 : ∀ b ∈ 67 :: (w1 ++ 32 :: (w2 ++ 32 :: w3)), b ≠ 10 := by
    intro b hb
    simp only [List.mem_cons, List.mem_append] at hb
    rcases hb with h | h | h | h | h
    · omega
    · have h5 := h1 b h
      intro he
      subst he
      exact absurd h5 (by decide)
    · omega
    · have h5 := h2 b h
      intro he
      subst he
      exact absurd h5 (by decide)
    · rcases h with h | h
      · omega
      · have h5 := h3 b h
        intro he
        subst he
        exact absurd h5 (by decide)
  unfold readFileBytes
  rw [takeLine_append _ _ hno10]
  have hline : (67 :: (w1 ++ 32 :: (w2 ++ 32 :: w3))) ++ [10] =
      67 :: (w1 ++ 32 :: (w2 ++ 32 :: (w3 ++ [10]))) := by
    simp
  simp only [hline, readFileHeader, if_pos rfl]
  rw [goFields_three w1 w2 w3 h1 n1 h2 n2 h3 n3]
  simp

/-- C6 (amended): the scp byte-stream round-trip holds for every contents
of length at most 2^31 - 1, every mode in the int32 range 0 .. 2^31 - 1,
and a non-empty whitespace-free printable-ASCII basename: readFile
recovers byte-identical contents and the same mode (and the basename and
length) from the stream sendFile produced. -/
theorem scp_roundtrip (mode : Int) (contents basename : Bytes)
    (hm0 : 0 ≤ mode) (hm1 : mode ≤ 2 ^ 31 - 1)
    (hlen : contents.length ≤ 2 ^ 31 - 1)
    (hbsp : ∀ b ∈ basename, isSpaceByte b = false)
    (_hbascii : ∀ b ∈ basename, b < 128)
    (hbne : basename ≠ [])
    (_hcb : ∀ b ∈ contents, b < 256) :
    readFileBytes (sendFileBytes mode contents basename) =
      .ok ⟨basename, (contents.length : Int), mode, contents⟩ := by
  have hioct : intOct mode = natAscii 8 mode.toNat := by
    unfold intOct
    rw [if_neg (not_lt.mpr hm0)]
  have hstream : sendFileBytes mode contents basename =
      (67 :: ((48 :: natAscii 8 mode.toNat) ++
        32 :: (natAscii 10 contents.length ++ 32 :: basename))) ++
        10 :: (contents ++ [0]) := by
    simp [sendFileBytes, hioct]
  have hw1 : ∀ b ∈ 48 :: natAscii 8 mode.toNat, isSpaceByte b = false := by
    intro b hb
    rcases List.mem_cons.mp hb with h | h
    · subst h
      decide
    · exact isSpaceByte_digit b (natAscii_digits 8 mode.toNat (by norm_num) (by norm_num) b h).1
  have hw2 : ∀ b ∈ natAscii 10 contents.length, isSpaceByte b = false := by
    intro b hb
    exact isSpaceByte_digit b (natAscii_digits 10 contents.length (by norm_num) (by norm_num) b hb).1
  rw [hstream, readFileBytes_header _ _ _ _ hw1 (by simp) hw2 (natAscii_ne_nil 10 _) hbsp hbne]
  have hp1 : parseInt32 8 (48 :: natAscii 8 mode.toNat) = some mode := by
    rw [parseInt32_of_digit_head 8 48 _ (by omega)]
    have hv : parseDigits 8 0 (48 :: natAscii 8 mode.toNat) = some mode.toNat := by
      rw [parseDigits_zero_cons 8 (by norm_num)]
      exact parseDigits_natAscii 8 mode.toNat (by norm_num)
    rw [parseMagPos_eval 8 mode.toNat 48 _ hv, if_pos (by omega)]
    congr 1
    omega
  have hp2 : parseInt32 10 (natAscii 10 contents.length) = some (contents.length : Int) := by
    rw [parseInt32_natAscii 10 contents.length (by norm_num) (by norm_num), if_pos hlen]
  rw [hp1]
  simp only [hp2]
  unfold readFileBody
  rw [if_neg (by omega)]
  have hneed : ((contents.length : Int) + 1).toNat = contents.length + 1 := by omega
  have hblen : (contents ++ [0]).length = contents.length + 1 := by simp
  rw [hneed, hblen, if_neg (by omega)]
  have htake : (contents ++ [0]).take (contents.length + 1) = contents ++ [0] := by
    rw [← hblen]
    exact List.take_length _
  rw [htake]
  simp [List.getLast?_concat, List.dropLast_concat]

/-- Witness for scp_roundtrip: mode 0644 and three bytes of content round
trip through the wire format. -/
theorem scp_roundtrip_witness :
    readFileBytes (sendFileBytes 420 [104, 10, 0] [102]) =
      .ok ⟨[102], 3, 420, [104, 10, 0]⟩ :=
  scp_roundtrip 420 [104, 10, 0] [102] (by decide) (by decide) (by decide)
    (by decide) (by decide) (by decide) (by decide)

/-- C6 counterexample: at the negative mode -1 the sender emits the
header field 0-1, which the receiver rejects as a bad octal mode, so the
round trip does not hold for every mode. -/
theorem scp_roundtrip_cex :
    readFileBytes (sendFileBytes (-1) [] [102]) = .fail .badMode ∧
    readFileBytes (sendFileBytes (-1) [] [102]) ≠
      .ok ⟨[102], 0, -1, []⟩ := by
  constructor <;> decide

/-- C7 (code bug evidence): the receiver parses the length field with
strconv.ParseInt bit size 32, so every length of 2^31 or more — far below
the documented signed 63-bit bound — is rejected as out of range;
concretely a header carrying length 2147483648 fails with the bad-length
error. -/
theorem readFile_length_int32_bound :
    (∀ len : Nat, 2 ^ 31 ≤ len → parseInt32 10 (natAscii 10 len) = none) ∧
    readFileBytes ((67 :: ((48 :: natAscii 8 384) ++
        32 :: (natAscii 10 (2 ^ 31) ++ 32 :: [102]))) ++ 10 :: []) =
      .fail .badLength := by
  constructor
  · intro len hlen
    rw [parseInt32_natAscii 10 len (by norm_num) (by norm_num), if_neg (by omega)]
  · decide

/-- Witness for readFile_length_int32_bound: the length 2^31 itself is
rejected by the 32-bit parse. -/
theorem readFile_length_int32_bound_witness :
    parseInt32 10 (natAscii 10 (2 ^ 31)) = none :=
  readFile_length_int32_bound.1 (2 ^ 31) le_rfl

end Bpass
